import Mathlib

/-!
# Neon Sentinel backend — verification of the gatekeeper subsystem

A shallow embedding of the Neon Sentinel backend (TypeScript) in Lean 4:

* `utils.ts` — `stableStringify`, `computeRunHash`, `computeExtractionValue`,
  `normalizeAddress`, `parseUint256`, `ensureBytes32`;
* `rateLimit.ts` — `checkRateLimit`, the fixed-window limiter;
* `db.ts` — the six logical tables and `logAudit`;
* `api.ts` — the four claim-processing routes (`/sign-identity`,
  `/game/run/raw`, `/sign-game-run`, `/faucet`), modelled as pure state
  transformers over an explicit database state.

JSON values are modelled by the inductive `Json`; JavaScript numbers are
modelled as rationals (`Json.num`) with a separate constructor `Json.nan`
for non-finite numbers, so the `Number.isFinite` checks of the source are
meaningful.  Timestamps (`Date.now()`, ISO strings that are later parsed
back with `Date.parse`) are modelled as integer milliseconds.  External
library primitives (keccak-256, EIP-55 checksumming, EIP-712 signing, the
mint transaction) are not part of this repository's sources; they are
modelled as fixed deterministic stand-ins with the same input/output
dependencies as the real ones, and every theorem below uses only those
dependency shapes, never a particular digest value of the real primitive.
-/

namespace NeonSentinel

/-- A JSON-like JavaScript value.  `num` is a finite number (modelled as a
rational), `nan` a non-finite number (`NaN`/`±Infinity`), for which
`Number.isFinite` is `false` and `JSON.stringify` emits `null`.  An `obj`
models a JavaScript object as its ordered field list; objects coming from
`JSON.parse`/zod have pairwise-distinct keys. -/
inductive Json where
  | null
  | nan
  | bool (b : Bool)
  | num (q : ℚ)
  | str (s : String)
  | arr (elems : List Json)
  | obj (fields : List (String × Json))

/-- Lexicographic comparison of character lists by code point, the order
`Array.prototype.sort()` applies to `Object.keys`. -/
def chLe : List Char → List Char → Bool
  | [], _ => true
  | _ :: _, [] => false
  | a :: as, b :: bs =>
    if a.toNat < b.toNat then true
    else if b.toNat < a.toNat then false
    else chLe as bs

/-- `a ≤ b` for strings, as the default JavaScript sort comparator orders
object keys. -/
def strLeB (a b : String) : Bool := chLe a.data b.data

/-- The key order as a relation. -/
def strLeR (a b : String) : Prop := strLeB a b = true

instance : DecidableRel strLeR :=
  fun a b => inferInstanceAs (Decidable (strLeB a b = true))

/-- `keys.sort()` of the source: sort a list of keys lexicographically. -/
def sortStrings (l : List String) : List String :=
  l.insertionSort strLeR

/-- `[s1, ..., sn].join(",")`. -/
def joinComma : List String → String
  | [] => ""
  | [x] => x
  | x :: y :: xs => x ++ "," ++ joinComma (y :: xs)

/-- `JSON.stringify` of a string: quote it, escaping quotes and
backslashes (the control-character escapes of the real encoder are omitted;
no claim depends on them). -/
def jsonQuote (s : String) : String :=
  "\"" ++ String.join (s.data.map fun c =>
    if c = '"' then "\\\"" else if c = '\\' then "\\\\" else String.singleton c) ++ "\""

/-- Rendering of a finite JavaScript number.  A fixed deterministic
function of the rational value, standing in for the ECMAScript
double-to-string algorithm; every claim uses only that equal numbers
render equally. -/
def numRender (q : ℚ) : String :=
  if q.den = 1 then toString q.num else toString q.num ++ "e" ++ toString q.den

/-- `record[key]` on a rendered field list: the first binding of `key`.
JavaScript objects hold each key at most once, so on the lists that model
them this is the binding of `key`. -/
def lookupStr (l : List (String × String)) (k : String) : String :=
  ((l.find? fun p => p.1 == k).map Prod.snd).getD "undefined"

mutual

/-- `stableStringify` of `utils.ts`: scalars via `JSON.stringify`, arrays
elementwise in order, objects with keys sorted (`Object.keys(value).sort()`)
and each sorted key rendered as `JSON.stringify(key) + ":" + stableStringify(value[key])`.
The per-key recursion is staged through `renderFields` (render every field
once, then look the sorted keys up in the rendered list), which agrees with
the source's sort-then-index order because rendering a field does not
depend on its position. -/
def stableStringify : Json → String
  | .null => "null"
  | .nan => "null"
  | .bool b => if b then "true" else "false"
  | .num q => numRender q
  | .str s => jsonQuote s
  | .arr elems => "[" ++ joinComma (stringifyList elems) ++ "]"
  | .obj fields =>
    "\x7b" ++ joinComma ((sortStrings (fields.map Prod.fst)).map fun k =>
      jsonQuote k ++ ":" ++ lookupStr (renderFields fields) k) ++ "\x7d"

/-- `value.map((item) => stableStringify(item))`. -/
def stringifyList : List Json → List String
  | [] => []
  | x :: xs => stableStringify x :: stringifyList xs

/-- Render every field of an object to its canonical string. -/
def renderFields : List (String × Json) → List (String × String)
  | [] => []
  | (k, v) :: rest => (k, stableStringify v) :: renderFields rest

end

mutual

/-- Plain `JSON.stringify`: like `stableStringify` but with object fields
in insertion order (used by the routes to persist payload columns). -/
def jsStringify : Json → String
  | .null => "null"
  | .nan => "null"
  | .bool b => if b then "true" else "false"
  | .num q => numRender q
  | .str s => jsonQuote s
  | .arr elems => "[" ++ joinComma (jsStringifyList elems) ++ "]"
  | .obj fields => "\x7b" ++ joinComma (jsStringifyFields fields) ++ "\x7d"

/-- Elements of an array under `JSON.stringify`. -/
def jsStringifyList : List Json → List String
  | [] => []
  | x :: xs => jsStringify x :: jsStringifyList xs

/-- Fields of an object under `JSON.stringify`, in insertion order. -/
def jsStringifyFields : List (String × Json) → List String
  | [] => []
  | (k, v) :: rest => (jsonQuote k ++ ":" ++ jsStringify v) :: jsStringifyFields rest

end

/-- One hexadecimal digit. -/
def hexDigitChar (n : Nat) : Char :=
  if n < 10 then Char.ofNat (48 + n) else Char.ofNat (87 + n % 6)

/-- `n` as `width` hexadecimal digits (most significant first). -/
def toHexDigits : Nat → Nat → List Char
  | 0, _ => []
  | w + 1, n => toHexDigits w (n / 16) ++ [hexDigitChar (n % 16)]

/-- Modelled from the spec: the keccak-256 primitive (from the external
`ethers` library, not part of this repository's sources), hashing the
UTF-8 bytes of the canonical string to a 32-byte digest rendered as a
`0x`-prefixed 64-hex-character string.  A fixed deterministic stand-in
over the code points of the string; every theorem uses only that it is a
function of the string. -/
def keccak256Hex (s : String) : String :=
  "0x" ++ String.mk (toHexDigits 64
    (s.data.foldl (fun a c => (a * 131 + c.toNat) % 2 ^ 256) 7))

/-- `computeRunHash` of `utils.ts`: keccak-256 of the UTF-8 bytes of the
canonical form. -/
def computeRunHash (payload : Json) : String :=
  keccak256Hex (stableStringify payload)

/-- `record[key]` on a field list: the first binding of `key`, if any. -/
def lookupField (fields : List (String × Json)) (k : String) : Option Json :=
  (fields.find? fun p => p.1 == k).map Prod.snd

/-- `typeof x === "number" && Number.isFinite(x)`: the rational value of a
finite JavaScript number, and `none` otherwise. -/
def asFiniteNumber : Option Json → Option ℚ
  | some (.num q) => some q
  | _ => none

/-- `BigInt(Math.max(0, Math.floor(x)))`: floor, then clamp to `≥ 0`. -/
def floorClamp (q : ℚ) : ℤ := max 0 q.floor

/-- One summand of the `events` reduction in `computeExtractionValue`:
an object element contributes the floored, clamped `value` field when it
is a finite number, and everything else contributes `0`. -/
def eventValue : Json → ℤ
  | .obj fields =>
    match asFiniteNumber (lookupField fields "value") with
    | some q => floorClamp q
    | none => 0
  | _ => 0

/-- `computeExtractionValue` of `utils.ts`: `score` if a finite number
(floored, clamped), else `extractionValue` under the same rule, else the
sum over an `events` array of each element's clamped `value`, else `0`.
A non-object payload (including `null`) yields `0`; an array payload has
none of the three fields and also yields `0`. -/
def computeExtractionValue : Json → ℤ
  | .obj fields =>
    match asFiniteNumber (lookupField fields "score") with
    | some q => floorClamp q
    | none =>
      match asFiniteNumber (lookupField fields "extractionValue") with
      | some q => floorClamp q
      | none =>
        match lookupField fields "events" with
        | some (.arr events) => (events.map eventValue).foldl (· + ·) 0
        | _ => 0
  | _ => 0

/-- `parseUint256` of `utils.ts`: the value when `0 ≤ v ≤ 2^256 - 1`,
`none` (a thrown `Invalid uint256`) otherwise.  The coercion of
string/number/bigint inputs to a bigint is modelled by taking the integer
value directly; a string that `BigInt` rejects is out-of-model and maps to
the same thrown-error outcome. -/
def parseUint256 (v : ℤ) : Option ℤ :=
  if 0 ≤ v ∧ v ≤ 2 ^ 256 - 1 then some v else none

/-- `isHexString(value, n)` of ethers: `0x` followed by exactly `2 * n`
hexadecimal digits. -/
def isHexStringOf (s : String) (bytes : Nat) : Bool :=
  match s.data with
  | '0' :: 'x' :: rest => rest.length = 2 * bytes && rest.all fun c =>
      ('0' ≤ c && c ≤ '9') || ('a' ≤ c && c ≤ 'f') || ('A' ≤ c && c ≤ 'F')
  | _ => false

/-- `ensureBytes32` of `utils.ts`: the string itself when it is a
`0x`-prefixed 64-hex-digit string, `none` (thrown `Invalid bytes32`)
otherwise. -/
def ensureBytes32 (s : String) : Option String :=
  if isHexStringOf s 32 then some s else none

/-- Lower-case a hexadecimal letter, leave every other character alone. -/
def lowerHexChar (c : Char) : Char :=
  if 'A' ≤ c ∧ c ≤ 'F' then Char.ofNat (c.toNat + 32) else c

/-- Upper-case a lower-case hexadecimal letter. -/
def upperHexChar (c : Char) : Char :=
  if 'a' ≤ c ∧ c ≤ 'f' then Char.ofNat (c.toNat - 32) else c

/-- A hexadecimal digit (either case). -/
def isHexDigit (c : Char) : Bool :=
  ('0' ≤ c && c ≤ '9') || ('a' ≤ c && c ≤ 'f') || ('A' ≤ c && c ≤ 'F')

/-- Modelled from the spec: the EIP-55 checksum casing of ethers
`getAddress` (external library).  The real one upper-cases a hex letter
when the corresponding nibble of the keccak-256 hash of the lower-cased
digits is `≥ 8`; the stand-in uses a fixed deterministic hash of the same
lower-cased digits, preserving the property every claim uses — the
canonical form is a function of the case-insensitive digit string. -/
def checksumCase (digits : List Char) : List Char :=
  let lower := digits.map lowerHexChar
  let h : Nat := lower.foldl (fun a c => (a * 131 + c.toNat) % 2 ^ 40) 7
  lower.enum.map fun p =>
    if ('a' ≤ p.2 ∧ p.2 ≤ 'f') ∧ ((h >>> p.1) % 2 = 1) then upperHexChar p.2 else p.2

/-- Modelled from the spec: ethers `isAddress` (external library).  A
`0x`-prefixed 40-hex-digit string whose letters are either uniformly
lower-case, uniformly upper-case, or exactly the EIP-55 checksum casing. -/
def isAddress (s : String) : Bool :=
  match s.data with
  | '0' :: 'x' :: rest =>
    rest.length = 40 && rest.all isHexDigit &&
      (rest.all (fun c => !('A' ≤ c && c ≤ 'F')) ||
       rest.all (fun c => !('a' ≤ c && c ≤ 'f')) ||
       rest == checksumCase rest)
  | _ => false

/-- Modelled from the spec: ethers `getAddress` (external library) — the
canonical checksummed form of a valid address. -/
def getAddress (s : String) : String :=
  match s.data with
  | '0' :: 'x' :: rest => "0x" ++ String.mk (checksumCase rest)
  | _ => s

/-- `normalizeAddress` of `utils.ts`: the canonical checksummed form when
the input is a valid address, `none` (a thrown `Invalid wallet address`)
otherwise. -/
def normalizeAddress (s : String) : Option String :=
  if isAddress s then some (getAddress s) else none

/-! ## EIP-712 typed data (`api.ts`) -/

/-- The EIP-712 domain record built by `eip712Domain`. -/
structure Eip712Domain where
  name : String
  version : String
  chainId : ℤ
  verifyingContract : String
deriving DecidableEq

/-- `eip712Domain` of `api.ts`. -/
def eip712Domain (chainId : ℤ) (verifyingContract : String) : Eip712Domain :=
  { name := "ECDSAVerifier"
    version := "1"
    chainId := chainId
    verifyingContract := verifyingContract }

/-- A value bound to one field of a typed message. -/
inductive FieldValue where
  | uint (n : ℤ)
  | addr (a : String)
  | bytes (h : String)
deriving DecidableEq

/-- The full typed payload handed to `signTypedData`: domain, the type
descriptor (type name with its ordered field names and type tags), and
the ordered message fields. -/
structure TypedData where
  domain : Eip712Domain
  types : List (String × List (String × String))
  message : List (String × FieldValue)
deriving DecidableEq

/-- `identityTypes` of `api.ts`. -/
def identityTypes : List (String × List (String × String)) :=
  [("IdentityRegistration", [("commitment", "uint256"), ("wallet", "address")])]

/-- `runTypes` of `api.ts`. -/
def runTypes : List (String × List (String × String)) :=
  [("GameRunSubmission",
    [("runHash", "bytes32"), ("extractionValue", "uint256"),
     ("identityCommitment", "uint256"), ("player", "address")])]

/-- Modelled from the spec: ethers `Wallet.signTypedData` (external
library) is a pure function of the domain, the type schema and the field
values (the signer holds no internal mutable state); the signature blob
is modelled as the typed payload itself. -/
def signTypedData (domain : Eip712Domain) (types : List (String × List (String × String)))
    (message : List (String × FieldValue)) : TypedData :=
  { domain := domain, types := types, message := message }

/-! ## Database state (`db.ts`) -/

/-- A row of the `users` table (the Identity rows).  `commitment` is
stored as its decimal string; timestamps are integer milliseconds. -/
structure UserRow where
  commitment : String
  verified : Bool
  lastVerificationRequestAt : Option ℤ
  createdAt : ℤ
  updatedAt : ℤ
deriving DecidableEq

/-- A row of the `runs` table, keyed by `run_hash`. -/
structure RunRow where
  wallet : String
  extractionValue : String
  identityCommitment : String
  status : String
  createdAt : ℤ
deriving DecidableEq

/-- A row of the append-only `raw_runs` table. -/
structure RawRunRow where
  wallet : String
  sessionId : Option String
  runHash : String
  extractionValue : String
  status : String
  payload : String
  createdAt : ℤ
deriving DecidableEq

/-- A row of the `faucet_claims` table, keyed by `(wallet, token)`. -/
structure FaucetRow where
  lastClaimAt : ℤ
deriving DecidableEq

/-- A row of the `rate_limits` table, keyed by `key`. -/
structure RateRow where
  windowStart : ℤ
  count : ℤ
deriving DecidableEq

/-- A row of the append-only `audit_logs` table. -/
structure AuditRow where
  eventType : String
  wallet : Option String
  details : String
  success : Bool
  createdAt : ℤ
deriving DecidableEq

/-- Point update of a keyed table. -/
def upd {κ β : Type} [DecidableEq κ] (m : κ → Option β) (k : κ) (v : β) :
    κ → Option β :=
  fun x => if x = k then some v else m x

/-- The six logical tables of `db.ts`.  Keyed tables are maps from their
primary key; append-only tables are lists in insertion order. -/
structure Db where
  users : String → Option UserRow
  runs : String → Option RunRow
  rawRuns : List RawRunRow
  faucetClaims : String × String → Option FaucetRow
  rateLimits : String → Option RateRow
  auditLogs : List AuditRow

/-- `logAudit` of `db.ts`: append one immutable audit record. -/
def logAudit (db : Db) (eventType : String) (wallet : Option String)
    (details : String) (success : Bool) (now : ℤ) : Db :=
  { db with auditLogs := db.auditLogs ++
      [{ eventType := eventType, wallet := wallet, details := details,
         success := success, createdAt := now }] }

/-! ## Fixed-window rate limiter (`rateLimit.ts`) -/

/-- The result record of `checkRateLimit`. -/
structure RateLimitResult where
  allowed : Bool
  retryAfterMs : Option ℤ
deriving DecidableEq

/-- `checkRateLimit` of `rateLimit.ts`: fixed-window counter keyed by an
arbitrary string.  Missing or expired counter: reset to `count = 1` and
admit.  Counter at or above the limit: reject with the remaining window.
Otherwise: increment and admit. -/
def checkRateLimit (rl : String → Option RateRow) (key : String)
    (maxRequests : ℤ) (windowMs : ℤ) (now : ℤ) :
    (String → Option RateRow) × RateLimitResult :=
  match rl key with
  | none => (upd rl key { windowStart := now, count := 1 }, { allowed := true, retryAfterMs := none })
  | some row =>
    if now - row.windowStart ≥ windowMs then
      (upd rl key { windowStart := now, count := 1 }, { allowed := true, retryAfterMs := none })
    else if row.count ≥ maxRequests then
      (rl, { allowed := false, retryAfterMs := some (windowMs - (now - row.windowStart)) })
    else
      (upd rl key { row with count := row.count + 1 }, { allowed := true, retryAfterMs := none })

/-! ## The four claim-processing routes (`api.ts`)

Each route is a pure state transformer `Db → Db × Outcome _`.  A route's
`body` argument is `none` when the zod schema rejects the request body
(the thrown `ZodError` of the source), and carries the parsed fields
otherwise.  External suspension points (the identity oracle, the mint
transaction) enter as explicit inputs. -/

/-- The machine-readable error tags of the API. -/
inductive ApiError where
  | invalid_request
  | rate_limited
  | already_verified
  | commitment_mismatch
  | duplicate_run
  | run_hash_mismatch
  | extraction_value_mismatch
  | identity_not_verified
  | faucet_not_configured
  | token_not_configured
  | already_claimed
  | not_found
deriving DecidableEq

/-- The terminal outcome of a route: a success body or an error tag. -/
inductive Outcome (α : Type) where
  | ok (a : α)
  | err (e : ApiError)
deriving DecidableEq

/-- The faucet token enum of `faucetSchema`. -/
inductive Token where
  | USDT
  | METH
deriving DecidableEq

/-- The dependency record handed to `registerApiRoutes`, restricted to
the fields the four routes read.  `oracle` models the configured
`NeonIdentity.isVerified` view call: `none` when `neonIdentityAddress` is
unset (the lookup is skipped), otherwise the boolean the contract
returns for each wallet. -/
structure ApiDeps where
  chainId : ℤ
  ecdsaVerifierAddress : String
  oracle : Option (String → Bool)
  signIdentityLimit : ℤ
  signIdentityWindowMs : ℤ
  signGameLimit : ℤ
  signGameWindowMs : ℤ
  faucetWindowMs : ℤ
  faucetUsdtAmount : ℚ
  faucetMethAmount : ℚ
  usdtAddress : Option String
  methAddress : Option String
  hasFaucetSigner : Bool

/-- `isIdentityVerified` of `api.ts`: `none` (don't know) when no
identity contract is configured, else the oracle's answer. -/
def isIdentityVerified (deps : ApiDeps) (wallet : String) : Option Bool :=
  deps.oracle.map fun f => f wallet

/-- The body of `/sign-identity` after `identitySchema`: a wallet string
and the commitment's numeric value. -/
structure IdentityBody where
  wallet : String
  commitment : ℤ

/-- The body of `/sign-game-run` after `runSchema`. -/
structure RunBody where
  wallet : String
  runHash : String
  extractionValue : ℤ
  identityCommitment : ℤ
  raw : Option Json

/-- The body of `/game/run/raw` after `rawRunSchema` (zod strips keys
not in the schema; `score` is a finite number when present, since
`z.number()` rejects `NaN`). -/
structure RawRunBody where
  wallet : String
  sessionId : Option String
  events : Option (List Json)
  score : Option ℚ

/-- The body of `/faucet` after `faucetSchema`. -/
structure FaucetBody where
  wallet : String
  token : Option Token

/-- JavaScript truthiness of a JSON value (`if (payload.raw)`). -/
def jsTruthy : Json → Bool
  | .null => false
  | .nan => false
  | .bool b => b
  | .num q => q ≠ 0
  | .str s => s ≠ ""
  | .arr _ => true
  | .obj _ => true

/-- `/sign-identity`: parse, normalize, range-check, rate-limit on
`sign-identity:{wallet}`, conflict checks on the Identity row, upsert,
sign `IdentityRegistration`, audit. -/
def signIdentity (deps : ApiDeps) (st : Db) (body : Option IdentityBody) (now : ℤ) :
    Db × Outcome TypedData :=
  match body with
  | none => (logAudit st "sign_identity" none "error" false now, .err .invalid_request)
  | some b =>
    match normalizeAddress b.wallet with
    | none => (logAudit st "sign_identity" none "error" false now, .err .invalid_request)
    | some wallet =>
      match parseUint256 b.commitment with
      | none => (logAudit st "sign_identity" (some wallet) "error" false now, .err .invalid_request)
      | some commitment =>
        let rated := checkRateLimit st.rateLimits ("sign-identity:" ++ wallet)
          deps.signIdentityLimit deps.signIdentityWindowMs now
        let st1 : Db := { st with rateLimits := rated.1 }
        if !rated.2.allowed then (st1, .err .rate_limited)
        else
          let existing := st1.users wallet
          if (existing.map UserRow.verified).getD false then
            (st1, .err .already_verified)
          else if (existing.map UserRow.commitment).getD (toString commitment) ≠ toString commitment then
            (st1, .err .commitment_mismatch)
          else
            let newRow : UserRow :=
              match existing with
              | some ex =>
                { ex with
                  commitment := toString commitment,
                  lastVerificationRequestAt := some now,
                  updatedAt := now }
              | none =>
                { commitment := toString commitment,
                  verified := false,
                  lastVerificationRequestAt := some now,
                  createdAt := now,
                  updatedAt := now }
            let st2 : Db := { st1 with users := upd st1.users wallet newRow }
            let signature := signTypedData (eip712Domain deps.chainId deps.ecdsaVerifierAddress)
              identityTypes [("commitment", .uint commitment), ("wallet", .addr wallet)]
            (logAudit st2 "sign_identity" (some wallet) (toString commitment) true now,
             .ok signature)

/-- The success body of `/game/run/raw`. -/
structure RawRunRes where
  runHash : String
  extractionValue : String
deriving DecidableEq

/-- `{ ...payload, wallet }`: the submitted payload with its `wallet`
field replaced by the canonical checksummed address. -/
def rawRunPayload (b : RawRunBody) (wallet : String) : Json :=
  .obj ([("wallet", Json.str wallet)] ++
    (match b.sessionId with | some s => [("sessionId", Json.str s)] | none => []) ++
    (match b.events with | some es => [("events", Json.arr es)] | none => []) ++
    (match b.score with | some q => [("score", Json.num q)] | none => []))

/-- `/game/run/raw`: parse, normalize, hash and value the normalized
payload, append a `raw_runs` row, return the derivation.  No rate limit,
no idempotency check, and (in the source) no audit record on either
outcome — the catch branch only logs to the structured logger. -/
def gameRunRaw (st : Db) (body : Option RawRunBody) (now : ℤ) :
    Db × Outcome RawRunRes :=
  match body with
  | none => (st, .err .invalid_request)
  | some b =>
    match normalizeAddress b.wallet with
    | none => (st, .err .invalid_request)
    | some wallet =>
      let runPayload := rawRunPayload b wallet
      let runHash := computeRunHash runPayload
      let extractionValue := computeExtractionValue runPayload
      let row : RawRunRow :=
        { wallet := wallet, sessionId := b.sessionId, runHash := runHash,
          extractionValue := toString extractionValue, status := "valid",
          payload := jsStringify runPayload, createdAt := now }
      ({ st with rawRuns := st.rawRuns ++ [row] },
       .ok { runHash := runHash, extractionValue := toString extractionValue })

/-- The success body of `/sign-game-run`. -/
structure RunRes where
  signature : TypedData
  approved : Bool
  runHash : String
  extractionValue : String
  identityCommitment : String
deriving DecidableEq

/-- `/sign-game-run`: parse, normalize, validate `runHash` and the two
uint256 fields, rate-limit on `sign-game:{wallet}`, duplicate check on
the `runs` table, optional raw-payload recomputation, optional oracle
check, sign `GameRunSubmission`, insert the Run row, audit. -/
def signGameRun (deps : ApiDeps) (st : Db) (body : Option RunBody) (now : ℤ) :
    Db × Outcome RunRes :=
  match body with
  | none => (logAudit st "sign_game_run" none "error" false now, .err .invalid_request)
  | some b =>
    match normalizeAddress b.wallet with
    | none => (logAudit st "sign_game_run" none "error" false now, .err .invalid_request)
    | some wallet =>
      match ensureBytes32 b.runHash with
      | none => (logAudit st "sign_game_run" (some wallet) "error" false now, .err .invalid_request)
      | some runHash =>
        match parseUint256 b.extractionValue with
        | none => (logAudit st "sign_game_run" (some wallet) "error" false now, .err .invalid_request)
        | some extractionValue =>
          match parseUint256 b.identityCommitment with
          | none => (logAudit st "sign_game_run" (some wallet) "error" false now, .err .invalid_request)
          | some identityCommitment =>
            let rated := checkRateLimit st.rateLimits ("sign-game:" ++ wallet)
              deps.signGameLimit deps.signGameWindowMs now
            let st1 : Db := { st with rateLimits := rated.1 }
            if !rated.2.allowed then (st1, .err .rate_limited)
            else if (st1.runs runHash).isSome then (st1, .err .duplicate_run)
            else
              let mismatch : Option ApiError :=
                match b.raw with
                | some raw =>
                  if jsTruthy raw then
                    if computeRunHash raw ≠ runHash then some .run_hash_mismatch
                    else if computeExtractionValue raw ≠ extractionValue then
                      some .extraction_value_mismatch
                    else none
                  else none
                | none => none
              match mismatch with
              | some e => (st1, .err e)
              | none =>
                if isIdentityVerified deps wallet = some false then
                  (st1, .err .identity_not_verified)
                else
                  let signature := signTypedData
                    (eip712Domain deps.chainId deps.ecdsaVerifierAddress) runTypes
                    [("runHash", .bytes runHash), ("extractionValue", .uint extractionValue),
                     ("identityCommitment", .uint identityCommitment), ("player", .addr wallet)]
                  let row : RunRow :=
                    { wallet := wallet, extractionValue := toString extractionValue,
                      identityCommitment := toString identityCommitment,
                      status := "signed", createdAt := now }
                  let st2 : Db := { st1 with runs := upd st1.runs runHash row }
                  (logAudit st2 "sign_game_run" (some wallet) (toString extractionValue) true now,
                   .ok { signature := signature, approved := true, runHash := runHash,
                         extractionValue := toString extractionValue,
                         identityCommitment := toString identityCommitment })

/-- The confirmation the external mint transaction returns. -/
structure MintReceipt where
  txHash : String
  balance : ℤ
  blockNumber : Option ℤ
deriving DecidableEq

/-- The success body of `/faucet`. -/
structure FaucetRes where
  txHash : String
  amount : ℤ
  balance : ℤ
  blockNumber : Option ℤ
deriving DecidableEq

/-- Modelled from the spec: ethers `parseUnits` (external library) — the
decimal amount scaled by `10^decimals`. -/
def parseUnits (q : ℚ) (decimals : ℕ) : ℤ := (q * 10 ^ decimals).floor

/-- `/faucet`: configuration checks, parse, normalize, per-IP rate
limit, cooldown check on `(wallet, token)`, mint (external — `mint` is
the receipt the transaction resolves to, `none` when it rejects), upsert
the claim row, audit.  The configuration and admission failures return
before any audit; the catch branch (parse, normalize, mint failure)
audits with `success = false`. -/
def faucet (deps : ApiDeps) (st : Db) (body : Option FaucetBody) (ip : String)
    (mint : Option MintReceipt) (now : ℤ) : Db × Outcome FaucetRes :=
  if !deps.hasFaucetSigner then (st, .err .faucet_not_configured)
  else
    match body with
    | none => (logAudit st "faucet_mint" none "error" false now, .err .invalid_request)
    | some b =>
      match normalizeAddress b.wallet with
      | none => (logAudit st "faucet_mint" none "error" false now, .err .invalid_request)
      | some wallet =>
        let token := b.token.getD .USDT
        let tokenAddress := match token with
          | .USDT => deps.usdtAddress
          | .METH => deps.methAddress
        match tokenAddress with
        | none => (st, .err .token_not_configured)
        | some _ =>
          let rated := checkRateLimit st.rateLimits ("faucet-ip:" ++ ip) 5
            deps.faucetWindowMs now
          let st1 : Db := { st with rateLimits := rated.1 }
          if !rated.2.allowed then (st1, .err .rate_limited)
          else
            let tokenName := match token with | .USDT => "USDT" | .METH => "METH"
            let existing := st1.faucetClaims (wallet, tokenName)
            if (existing.map fun row => decide (now - row.lastClaimAt < deps.faucetWindowMs)).getD false then
              (st1, .err .already_claimed)
            else
              let amount := match token with
                | .USDT => parseUnits deps.faucetUsdtAmount 6
                | .METH => parseUnits deps.faucetMethAmount 18
              match mint with
              | none =>
                (logAudit st1 "faucet_mint" (some wallet) "error" false now, .err .invalid_request)
              | some receipt =>
                let st2 : Db := { st1 with
                  faucetClaims := upd st1.faucetClaims (wallet, tokenName) { lastClaimAt := now } }
                (logAudit st2 "faucet_mint" (some wallet) receipt.txHash true now,
                 .ok { txHash := receipt.txHash, amount := amount,
                       balance := receipt.balance, blockNumber := receipt.blockNumber })

/-- The empty database (a fresh `initDb`). -/
def emptyDb : Db :=
  { users := fun _ => none
    runs := fun _ => none
    rawRuns := []
    faucetClaims := fun _ => none
    rateLimits := fun _ => none
    auditLogs := [] }

/-- A valid all-lower-case test wallet (`0x` + 40 hex digits). -/
def walletLowerA : String := "0xaaaaaaaaaaaaaaaaaaaaaaaaaaaaaaaaaaaaaaaa"

/-- The same test wallet with its digits upper-cased (also valid, being
uniformly cased). -/
def walletUpperA : String := "0xAAAAAAAAAAAAAAAAAAAAAAAAAAAAAAAAAAAAAAAA"

/-- A concrete dependency record for witnesses and counterexamples,
mirroring the test harness configuration. -/
def depsTest : ApiDeps :=
  { chainId := 5001
    ecdsaVerifierAddress := "0x0000000000000000000000000000000000000001"
    oracle := none
    signIdentityLimit := 5
    signIdentityWindowMs := 60000
    signGameLimit := 5
    signGameWindowMs := 60000
    faucetWindowMs := 60000
    faucetUsdtAmount := 1000
    faucetMethAmount := 1 / 10
    usdtAddress := some "0x0000000000000000000000000000000000000002"
    methAddress := none
    hasFaucetSigner := true }

/-- An all-zero 32-byte hash value. -/
def zeroHash : String :=
  "0x0000000000000000000000000000000000000000000000000000000000000000"

/-- A concrete finalized Run row. -/
def runRow0 : RunRow :=
  { wallet := "w", extractionValue := "0", identityCommitment := "0",
    status := "signed", createdAt := 0 }

/-- A database holding exactly one finalized run, under `zeroHash`. -/
def dbWithRun : Db :=
  { emptyDb with runs := upd emptyDb.runs zeroHash runRow0 }

/-- A finalize body whose `raw` payload does not hash to the claimed
`runHash`. -/
def rawMismatchBody : RunBody :=
  { wallet := walletLowerA, runHash := zeroHash, extractionValue := 0,
    identityCommitment := 0,
    raw := some (.obj [("wallet", .str walletLowerA)]) }

/-- A concrete raw-run body. -/
def rawBody0 : RawRunBody :=
  { wallet := walletLowerA, sessionId := none, events := none, score := some 1 }

/-- How many audit records a terminal outcome appends in the source: one
on success and on a caught failure (`invalid_request`), none on the
early-returned failures. -/
def auditCount {α : Type} : Outcome α → ℕ
  | .ok _ => 1
  | .err .invalid_request => 1
  | .err _ => 0

/-- Structural equality of JSON values: identical scalars, ordered
sequences equal elementwise, keyed structures (with pairwise-distinct
keys, as JavaScript objects have) carrying the same key set and, key by
key, structurally equal values — the fields may have been inserted in any
order. -/
inductive JEq : Json → Json → Prop where
  | null : JEq .null .null
  | nan : JEq .nan .nan
  | bool (b : Bool) : JEq (.bool b) (.bool b)
  | num (q : ℚ) : JEq (.num q) (.num q)
  | str (s : String) : JEq (.str s) (.str s)
  | arr (xs ys : List Json) (hlen : xs.length = ys.length)
      (helem : ∀ (i : ℕ) (h₁ : i < xs.length) (h₂ : i < ys.length),
        JEq (xs.get ⟨i, h₁⟩) (ys.get ⟨i, h₂⟩)) :
      JEq (.arr xs) (.arr ys)
  | obj (fs gs : List (String × Json))
      (hnf : (fs.map Prod.fst).Nodup) (hng : (gs.map Prod.fst).Nodup)
      (hkeys : ∀ k, k ∈ fs.map Prod.fst ↔ k ∈ gs.map Prod.fst)
      (hvals : ∀ k v w, (k, v) ∈ fs → (k, w) ∈ gs → JEq v w) :
      JEq (.obj fs) (.obj gs)

/-! ## Order lemmas for the canonical key sort -/

theorem chLe_refl : ∀ x : List Char, chLe x x = true := by
  intro x
  induction x with
  | nil => rfl
  | cons a as ih => simp [chLe, ih]

theorem chLe_total : ∀ x y : List Char, chLe x y = true ∨ chLe y x = true := by
  intro x
  induction x with
  | nil => intro y; left; simp [chLe]
  | cons a as ih =>
    intro y
    cases y with
    | nil => right; simp [chLe]
    | cons b bs =>
      rcases Nat.lt_trichotomy a.toNat b.toNat with h | h | h
      · left; simp [chLe, h]
      · rcases ih bs with h2 | h2
        · left; simp [chLe, h, h2]
        · right; simp [chLe, h, h2]
      · right; simp [chLe, h]

theorem chLe_trans : ∀ x y z : List Char,
    chLe x y = true → chLe y z = true → chLe x z = true := by
  intro x
  induction x with
  | nil => intro y z _ _; simp [chLe]
  | cons a as ih =>
    intro y z hxy hyz
    cases y with
    | nil => simp [chLe] at hxy
    | cons b bs =>
      cases z with
      | nil => simp [chLe] at hyz
      | cons c cs =>
        simp only [chLe] at hxy hyz ⊢
        by_cases h1 : a.toNat < b.toNat <;> by_cases h2 : b.toNat < a.toNat <;>
          by_cases h3 : b.toNat < c.toNat <;> by_cases h4 : c.toNat < b.toNat <;>
          by_cases h5 : a.toNat < c.toNat <;> by_cases h6 : c.toNat < a.toNat <;>
          simp only [h1, h2, h3, h4, h5, h6, if_true, if_false, ite_true,
            ite_false] at hxy hyz ⊢ <;>
          first
          | rfl
          | trivial
          | exact hxy
          | exact hyz
          | simp at hxy
          | simp at hyz
          | exact ih bs cs hxy hyz
          | (exfalso; omega)

theorem char_toNat_inj {a b : Char} (h : a.toNat = b.toNat) : a = b := by
  have := congrArg Char.ofNat h
  rwa [Char.ofNat_toNat, Char.ofNat_toNat] at this

theorem chLe_antisymm : ∀ x y : List Char,
    chLe x y = true → chLe y x = true → x = y := by
  intro x
  induction x with
  | nil =>
    intro y hxy hyx
    cases y with
    | nil => rfl
    | cons b bs => simp [chLe] at hyx
  | cons a as ih =>
    intro y hxy hyx
    cases y with
    | nil => simp [chLe] at hxy
    | cons b bs =>
      simp only [chLe] at hxy hyx
      by_cases h1 : a.toNat < b.toNat <;> by_cases h2 : b.toNat < a.toNat <;>
        simp only [h1, h2, if_true, if_false, ite_true, ite_false] at hxy hyx
      · exact absurd h2 (Nat.lt_asymm h1)
      · simp at hyx
      · simp at hxy
      · have hab : a = b := char_toNat_inj (by omega)
        rw [hab, ih bs hxy hyx]

instance : IsTrans String strLeR :=
  ⟨fun a b c hab hbc => chLe_trans a.data b.data c.data hab hbc⟩

instance : IsTotal String strLeR :=
  ⟨fun a b => chLe_total a.data b.data⟩

instance : IsAntisymm String strLeR :=
  ⟨fun a b hab hba => by
    have h := chLe_antisymm a.data b.data hab hba
    cases a; cases b; exact congrArg String.mk h⟩

theorem sortStrings_perm (l : List String) : (sortStrings l).Perm l :=
  List.perm_insertionSort strLeR l

theorem sortStrings_sorted (l : List String) : List.Sorted strLeR (sortStrings l) :=
  List.sorted_insertionSort strLeR l

theorem sortStrings_eq_of_perm {l₁ l₂ : List String} (h : l₁.Perm l₂) :
    sortStrings l₁ = sortStrings l₂ :=
  List.eq_of_perm_of_sorted
    (((sortStrings_perm l₁).trans h).trans (sortStrings_perm l₂).symm)
    (sortStrings_sorted l₁) (sortStrings_sorted l₂)

/-! ## Canonicalization is a function of structural equality (C1) -/

theorem stringifyList_eq_map (l : List Json) :
    stringifyList l = l.map stableStringify := by
  induction l with
  | nil => rfl
  | cons x xs ih => simp [stringifyList, ih]

theorem renderFields_eq_map (l : List (String × Json)) :
    renderFields l = l.map fun p => (p.1, stableStringify p.2) := by
  induction l with
  | nil => rfl
  | cons p rest ih => obtain ⟨k, v⟩ := p; simp [renderFields, ih]

theorem mem_keys_iff_exists {fs : List (String × Json)} {k : String} :
    k ∈ fs.map Prod.fst ↔ ∃ v, (k, v) ∈ fs := by
  simp only [List.mem_map]
  constructor
  · rintro ⟨⟨k', v⟩, hmem, rfl⟩; exact ⟨v, hmem⟩
  · rintro ⟨v, hmem⟩; exact ⟨(k, v), hmem, rfl⟩

/-- In a field list with pairwise-distinct keys, looking a present key up
finds exactly its (rendered) binding. -/
theorem find?_renderFields {fs : List (String × Json)} {k : String} {v : Json}
    (hnd : (fs.map Prod.fst).Nodup) (hmem : (k, v) ∈ fs) :
    (renderFields fs).find? (fun p => p.1 == k) = some (k, stableStringify v) := by
  induction fs with
  | nil => simp at hmem
  | cons p rest ih =>
    obtain ⟨k', v'⟩ := p
    simp only [List.map_cons, List.nodup_cons] at hnd
    rw [renderFields]
    by_cases hk : k' = k
    · subst hk
      rcases List.mem_cons.mp hmem with heq | hmem'
      · have hv : v = v' := (Prod.ext_iff.mp heq).2
        rw [List.find?_cons_of_pos _ (by simp), hv]
      · exact absurd (mem_keys_iff_exists.mpr ⟨v, hmem'⟩) hnd.1
    · rw [List.find?_cons_of_neg _ (by simpa using hk)]
      rcases List.mem_cons.mp hmem with heq | hmem'
      · exact absurd (Prod.ext_iff.mp heq).1.symm hk
      · exact ih hnd.2 hmem'

theorem lookupStr_renderFields {fs : List (String × Json)} {k : String} {v : Json}
    (hnd : (fs.map Prod.fst).Nodup) (hmem : (k, v) ∈ fs) :
    lookupStr (renderFields fs) k = stableStringify v := by
  rw [lookupStr, find?_renderFields hnd hmem]; rfl

/-- The congruence at the heart of C1: structurally equal values
canonicalize to the same byte string. -/
theorem stableStringify_congr {v w : Json} (h : JEq v w) :
    stableStringify v = stableStringify w := by
  induction h with
  | null => rfl
  | nan => rfl
  | bool b => rfl
  | num q => rfl
  | str s => rfl
  | arr xs ys hlen helem ih =>
    rw [stableStringify, stableStringify, stringifyList_eq_map, stringifyList_eq_map]
    have : xs.map stableStringify = ys.map stableStringify := by
      refine List.ext_get (by simpa using hlen) fun n h₁ h₂ => ?_
      simpa using ih n (by simpa using h₁) (by simpa using h₂)
    rw [this]
  | obj fs gs hnf hng hkeys hvals ih =>
    rw [stableStringify, stableStringify]
    have hkeysEq : sortStrings (fs.map Prod.fst) = sortStrings (gs.map Prod.fst) :=
      sortStrings_eq_of_perm ((List.perm_ext_iff_of_nodup hnf hng).mpr hkeys)
    rw [hkeysEq]
    have hmaps :
        (sortStrings (gs.map Prod.fst)).map
            (fun k => jsonQuote k ++ ":" ++ lookupStr (renderFields fs) k) =
          (sortStrings (gs.map Prod.fst)).map
            (fun k => jsonQuote k ++ ":" ++ lookupStr (renderFields gs) k) := by
      refine List.map_congr_left fun k hk => ?_
      have hkg : k ∈ gs.map Prod.fst := (sortStrings_perm _).mem_iff.mp hk
      have hkf : k ∈ fs.map Prod.fst := (hkeys k).mpr hkg
      obtain ⟨v, hv⟩ := mem_keys_iff_exists.mp hkf
      obtain ⟨w, hw⟩ := mem_keys_iff_exists.mp hkg
      rw [lookupStr_renderFields hnf hv, lookupStr_renderFields hng hw, ih k v w hv hw]
    rw [hmaps]

/-- C1: canonicalization is insertion-order independent — structurally
equal structures (same scalars, same sequence order, same key-value sets
for keyed structures, regardless of key insertion order) canonicalize to
identical byte strings, and hence `computeRunHash` (keccak-256 over the
UTF-8 bytes of the canonical form) yields identical digests. -/
theorem canonicalization_insertion_order_independent (v w : Json) (h : JEq v w) :
    stableStringify v = stableStringify w ∧ computeRunHash v = computeRunHash w := by
  have hs := stableStringify_congr h
  exact ⟨hs, by rw [computeRunHash, computeRunHash, hs]⟩

/-- Witness for C1 at a concrete pair: the same two-field object built in
the two possible key orders. -/
theorem canonicalization_insertion_order_independent_witness :
    stableStringify (.obj [("b", .num 2), ("a", .str "x")]) =
        stableStringify (.obj [("a", .str "x"), ("b", .num 2)]) ∧
      computeRunHash (.obj [("b", .num 2), ("a", .str "x")]) =
        computeRunHash (.obj [("a", .str "x"), ("b", .num 2)]) := by
  refine canonicalization_insertion_order_independent _ _ ?_
  refine JEq.obj _ _ (by decide) (by decide) (fun k => by simp [or_comm]) ?_
  intro k v w hv hw
  simp only [List.mem_cons, List.not_mem_nil, or_false, Prod.mk.injEq] at hv hw
  rcases hv with ⟨hk1, rfl⟩ | ⟨hk1, rfl⟩ <;> rcases hw with ⟨hk2, rfl⟩ | ⟨hk2, rfl⟩
  · exact absurd (hk1 ▸ hk2) (by decide)
  · exact JEq.num 2
  · exact JEq.str "x"
  · exact absurd (hk1 ▸ hk2) (by decide)

/-! ## The fixed-window rate limiter (C3) -/

/-- C3: `checkRateLimit` admits with a fresh `count = 1` counter when no
counter exists or the stored window start is at least `windowMs` in the
past; admits and increments when the stored count is strictly below the
limit; otherwise rejects with `retryAfterMs = windowMs - elapsed`.  With
`limit = 3` and `window = 60000`, four requests inside one window see the
fourth rejected, and a request after the window elapses is admitted with
the counter reset to 1. -/
theorem checkRateLimit_spec (rl : String → Option RateRow) (key : String)
    (limit windowMs now : ℤ) :
    ((rl key = none ∨ ∃ row, rl key = some row ∧ now - row.windowStart ≥ windowMs) →
      checkRateLimit rl key limit windowMs now =
        (upd rl key { windowStart := now, count := 1 },
         { allowed := true, retryAfterMs := none })) ∧
    (∀ row, rl key = some row → now - row.windowStart < windowMs → row.count < limit →
      checkRateLimit rl key limit windowMs now =
        (upd rl key { row with count := row.count + 1 },
         { allowed := true, retryAfterMs := none })) ∧
    (∀ row, rl key = some row → now - row.windowStart < windowMs → limit ≤ row.count →
      checkRateLimit rl key limit windowMs now =
        (rl, { allowed := false,
               retryAfterMs := some (windowMs - (now - row.windowStart)) })) ∧
    (let c1 := checkRateLimit (fun _ => none) "k" 3 60000 1000
     let c2 := checkRateLimit c1.1 "k" 3 60000 2000
     let c3 := checkRateLimit c2.1 "k" 3 60000 3000
     let c4 := checkRateLimit c3.1 "k" 3 60000 4000
     let c5 := checkRateLimit c4.1 "k" 3 60000 61000
     c1.2.allowed = true ∧ c2.2.allowed = true ∧ c3.2.allowed = true ∧
       c4.2 = { allowed := false, retryAfterMs := some 57000 } ∧
       c5.2.allowed = true ∧ c5.1 "k" = some { windowStart := 61000, count := 1 }) := by
  refine ⟨?_, ?_, ?_, by decide⟩
  · rintro (h | ⟨row, hrow, hexp⟩)
    · simp [checkRateLimit, h]
    · simp [checkRateLimit, hrow, hexp]
  · intro row hrow hwin hcount
    simp [checkRateLimit, hrow, not_le.mpr hwin, not_le.mpr hcount]
  · intro row hrow hwin hcount
    simp [checkRateLimit, hrow, not_le.mpr hwin, hcount]

/-- Witness for C3: a request on a fresh key is admitted with a `count = 1`
counter. -/
theorem checkRateLimit_spec_witness :
    checkRateLimit (fun _ => none) "wallet" 3 60000 5 =
      (upd (fun _ => none) "wallet" { windowStart := 5, count := 1 },
       { allowed := true, retryAfterMs := none }) :=
  (checkRateLimit_spec (fun _ => none) "wallet" 3 60000 5).1 (Or.inl rfl)

/-! ## Extraction-value precedence (C4) -/

/-- C4: `computeExtractionValue` precedence — a finite `score` wins
(floored, clamped to `≥ 0`); else a finite `extractionValue` under the
same rule; else the elementwise-clamped sum over an `events` array (with
non-object, non-numeric or missing elements contributing 0); else zero —
with exactly one branch firing, and the five concrete examples of the
spec. -/
theorem computeExtractionValue_spec :
    (∀ fields q, asFiniteNumber (lookupField fields "score") = some q →
      computeExtractionValue (.obj fields) = max 0 q.floor) ∧
    (∀ fields q, asFiniteNumber (lookupField fields "score") = none →
      asFiniteNumber (lookupField fields "extractionValue") = some q →
      computeExtractionValue (.obj fields) = max 0 q.floor) ∧
    (∀ fields events, asFiniteNumber (lookupField fields "score") = none →
      asFiniteNumber (lookupField fields "extractionValue") = none →
      lookupField fields "events" = some (.arr events) →
      computeExtractionValue (.obj fields) = (events.map eventValue).foldl (· + ·) 0) ∧
    (∀ fields, asFiniteNumber (lookupField fields "score") = none →
      asFiniteNumber (lookupField fields "extractionValue") = none →
      (∀ events, lookupField fields "events" ≠ some (.arr events)) →
      computeExtractionValue (.obj fields) = 0) ∧
    (∀ j, (∀ fields, j ≠ .obj fields) → computeExtractionValue j = 0) ∧
    (∀ fields q, asFiniteNumber (lookupField fields "value") = some q →
      eventValue (.obj fields) = max 0 q.floor) ∧
    (∀ fields, asFiniteNumber (lookupField fields "value") = none →
      eventValue (.obj fields) = 0) ∧
    (∀ j, (∀ fields, j ≠ .obj fields) → eventValue j = 0) ∧
    computeExtractionValue
      (.obj [("score", .num 10), ("events", .arr [.obj [("value", .num 99)]])]) = 10 ∧
    computeExtractionValue (.obj [("extractionValue", .num 5)]) = 5 ∧
    computeExtractionValue
      (.obj [("events", .arr [.obj [("value", .num 3)], .obj [("value", .num 2)]])]) = 5 ∧
    computeExtractionValue (.obj []) = 0 ∧
    computeExtractionValue (.obj [("score", .num (-5))]) = 0 := by
  refine ⟨?_, ?_, ?_, ?_, ?_, ?_, ?_, ?_, by decide, by decide, by decide, by decide, by decide⟩
  · intro fields q h
    simp [computeExtractionValue, h, floorClamp]
  · intro fields q h1 h2
    simp [computeExtractionValue, h1, h2, floorClamp]
  · intro fields events h1 h2 h3
    simp [computeExtractionValue, h1, h2, h3]
  · intro fields h1 h2 h3
    rcases hlook : lookupField fields "events" with _ | j
    · simp [computeExtractionValue, h1, h2, hlook]
    · cases j <;> simp [computeExtractionValue, h1, h2, hlook]
      exact absurd hlook (h3 _)
  · intro j h
    cases j <;> first | rfl | exact absurd rfl (h _)
  · intro fields q h
    simp [eventValue, h, floorClamp]
  · intro fields h
    simp [eventValue, h]
  · intro j h
    cases j <;> first | rfl | exact absurd rfl (h _)

/-- Witness for C4: the `score` branch at a concrete payload. -/
theorem computeExtractionValue_spec_witness :
    computeExtractionValue (.obj [("score", .num 10)]) = max 0 (10 : ℚ).floor :=
  computeExtractionValue_spec.1 [("score", .num 10)] 10 rfl

/-! ## Typed-message construction (C5) -/

/-- C5: typed-message construction is fixed and deterministic — every
identity attestation signs `IdentityRegistration` with ordered fields
`(commitment: uint256, wallet: address)`, every run attestation signs
`GameRunSubmission` with ordered fields `(runHash: bytes32,
extractionValue: uint256, identityCommitment: uint256, player: address)`,
both under the domain `name="ECDSAVerifier", version="1"` with the
configured chain id and verifier address; and `signTypedData` is a pure
function of domain, schema and field values. -/
theorem typed_message_construction (deps : ApiDeps) (st : Db) (now : ℤ) :
    (∀ b st' sig, signIdentity deps st (some b) now = (st', .ok sig) →
      ∃ wallet commitment,
        normalizeAddress b.wallet = some wallet ∧
        parseUint256 b.commitment = some commitment ∧
        sig = { domain := eip712Domain deps.chainId deps.ecdsaVerifierAddress,
                types := identityTypes,
                message := [("commitment", .uint commitment), ("wallet", .addr wallet)] }) ∧
    (∀ b st' r, signGameRun deps st (some b) now = (st', .ok r) →
      ∃ wallet runHash extractionValue identityCommitment,
        normalizeAddress b.wallet = some wallet ∧
        ensureBytes32 b.runHash = some runHash ∧
        parseUint256 b.extractionValue = some extractionValue ∧
        parseUint256 b.identityCommitment = some identityCommitment ∧
        r.signature =
          { domain := eip712Domain deps.chainId deps.ecdsaVerifierAddress,
            types := runTypes,
            message := [("runHash", .bytes runHash),
                        ("extractionValue", .uint extractionValue),
                        ("identityCommitment", .uint identityCommitment),
                        ("player", .addr wallet)] }) ∧
    eip712Domain deps.chainId deps.ecdsaVerifierAddress =
      { name := "ECDSAVerifier", version := "1", chainId := deps.chainId,
        verifyingContract := deps.ecdsaVerifierAddress } ∧
    (∀ dom types msg, signTypedData dom types msg = ⟨dom, types, msg⟩) := by
  refine ⟨?_, ?_, rfl, fun _ _ _ => rfl⟩
  · intro b st' sig h
    rcases hw : normalizeAddress b.wallet with _ | wallet
    · simp only [signIdentity, hw] at h
      simp at h
    rcases hc : parseUint256 b.commitment with _ | commitment
    · simp only [signIdentity, hw, hc] at h
      simp at h
    simp only [signIdentity, hw, hc] at h
    refine ⟨wallet, commitment, rfl, rfl, ?_⟩
    split at h
    · simp at h
    split at h
    · simp at h
    split at h
    · simp at h
    simp only [Prod.mk.injEq, Outcome.ok.injEq] at h
    exact h.2.symm
  · intro b st' r h
    rcases hw : normalizeAddress b.wallet with _ | wallet
    · simp only [signGameRun, hw] at h
      simp at h
    rcases hh : ensureBytes32 b.runHash with _ | runHash
    · simp only [signGameRun, hw, hh] at h
      simp at h
    rcases he : parseUint256 b.extractionValue with _ | extractionValue
    · simp only [signGameRun, hw, hh, he] at h
      simp at h
    rcases hi : parseUint256 b.identityCommitment with _ | identityCommitment
    · simp only [signGameRun, hw, hh, he, hi] at h
      simp at h
    simp only [signGameRun, hw, hh, he, hi] at h
    refine ⟨wallet, runHash, extractionValue, identityCommitment, rfl, rfl, rfl, rfl, ?_⟩
    split at h
    · simp at h
    split at h
    · simp at h
    split at h
    · simp at h
    split at h
    · simp at h
    simp only [Prod.mk.injEq, Outcome.ok.injEq] at h
    rw [← h.2]
    rfl

set_option maxRecDepth 100000 in
/-- Witness for C5: a concrete successful identity attestation. -/
theorem typed_message_construction_witness :
    ∃ wallet commitment,
      normalizeAddress walletLowerA = some wallet ∧
      parseUint256 7 = some commitment ∧
      ({ domain := eip712Domain depsTest.chainId depsTest.ecdsaVerifierAddress,
         types := identityTypes,
         message := [("commitment", .uint 7), ("wallet", .addr (getAddress walletLowerA))] }
        : TypedData) =
      { domain := eip712Domain depsTest.chainId depsTest.ecdsaVerifierAddress,
        types := identityTypes,
        message := [("commitment", .uint commitment), ("wallet", .addr wallet)] } :=
  (typed_message_construction depsTest emptyDb 0).1
    { wallet := walletLowerA, commitment := 7 }
    (signIdentity depsTest emptyDb (some { wallet := walletLowerA, commitment := 7 }) 0).1
    _ rfl

/-! ## Identity attestation conflict handling (C6) -/

/-- C6: for a parsed, rate-admitted identity request — a verified row
fails `already_verified` before any other row check; an unverified row
with a different commitment fails `commitment_mismatch` leaving every
Identity row unchanged; otherwise the row is upserted with commitment `C`
and a signature is returned, both on first registration and on
idempotent resubmission with the identical commitment. -/
theorem identity_conflict_handling (deps : ApiDeps) (st : Db) (b : IdentityBody)
    (now : ℤ) (wallet : String) (commitment : ℤ)
    (hw : normalizeAddress b.wallet = some wallet)
    (hc : parseUint256 b.commitment = some commitment)
    (hrate : (checkRateLimit st.rateLimits ("sign-identity:" ++ wallet)
      deps.signIdentityLimit deps.signIdentityWindowMs now).2.allowed = true) :
    (∀ ex, st.users wallet = some ex → ex.verified = true →
      (signIdentity deps st (some b) now).2 = .err .already_verified ∧
      (signIdentity deps st (some b) now).1.users = st.users) ∧
    (∀ ex, st.users wallet = some ex → ex.verified = false →
      ex.commitment ≠ toString commitment →
      (signIdentity deps st (some b) now).2 = .err .commitment_mismatch ∧
      (signIdentity deps st (some b) now).1.users = st.users) ∧
    (st.users wallet = none →
      (signIdentity deps st (some b) now).2 =
        .ok (signTypedData (eip712Domain deps.chainId deps.ecdsaVerifierAddress)
          identityTypes [("commitment", .uint commitment), ("wallet", .addr wallet)]) ∧
      (signIdentity deps st (some b) now).1.users wallet =
        some { commitment := toString commitment, verified := false,
               lastVerificationRequestAt := some now, createdAt := now, updatedAt := now }) ∧
    (∀ ex, st.users wallet = some ex → ex.verified = false →
      ex.commitment = toString commitment →
      (signIdentity deps st (some b) now).2 =
        .ok (signTypedData (eip712Domain deps.chainId deps.ecdsaVerifierAddress)
          identityTypes [("commitment", .uint commitment), ("wallet", .addr wallet)]) ∧
      (signIdentity deps st (some b) now).1.users wallet =
        some { ex with
               commitment := toString commitment,
               lastVerificationRequestAt := some now,
               updatedAt := now }) := by
  refine ⟨?_, ?_, ?_, ?_⟩
  · intro ex hex hv
    simp [signIdentity, hw, hc, hrate, hex, hv]
  · intro ex hex hv hne
    simp [signIdentity, hw, hc, hrate, hex, hv, hne]
  · intro hnone
    simp [signIdentity, hw, hc, hrate, hnone, logAudit, upd]
  · intro ex hex hv heq
    simp [signIdentity, hw, hc, hrate, hex, hv, heq, logAudit, upd]

set_option maxRecDepth 100000 in
/-- Witness for C6: a fresh registration against the empty store
succeeds and stores the commitment. -/
theorem identity_conflict_handling_witness :
    (signIdentity depsTest emptyDb
        (some { wallet := walletLowerA, commitment := 7 }) 0).2 =
      .ok (signTypedData (eip712Domain depsTest.chainId depsTest.ecdsaVerifierAddress)
        identityTypes
        [("commitment", .uint 7), ("wallet", .addr (getAddress walletLowerA))]) ∧
    (signIdentity depsTest emptyDb
        (some { wallet := walletLowerA, commitment := 7 }) 0).1.users
      (getAddress walletLowerA) =
      some { commitment := toString (7 : ℤ), verified := false,
             lastVerificationRequestAt := some 0, createdAt := 0, updatedAt := 0 } :=
  (identity_conflict_handling depsTest emptyDb
      { wallet := walletLowerA, commitment := 7 } 0 (getAddress walletLowerA) 7
      (by decide) rfl rfl).2.2.1 rfl

/-! ## Run rows are never updated or deleted; duplicates are rejected (C2) -/

theorem signIdentity_preserves_runs (deps : ApiDeps) (st : Db)
    (body : Option IdentityBody) (now : ℤ) :
    (signIdentity deps st body now).1.runs = st.runs := by
  cases body with
  | none => rfl
  | some b =>
    rcases hw : normalizeAddress b.wallet with _ | wallet
    · simp [signIdentity, hw, logAudit]
    rcases hc : parseUint256 b.commitment with _ | commitment
    · simp [signIdentity, hw, hc, logAudit]
    simp only [signIdentity, hw, hc]
    split
    · rfl
    split
    · rfl
    split
    · rfl
    rfl

theorem gameRunRaw_preserves_runs (st : Db) (body : Option RawRunBody) (now : ℤ) :
    (gameRunRaw st body now).1.runs = st.runs := by
  cases body with
  | none => rfl
  | some b =>
    rcases hw : normalizeAddress b.wallet with _ | wallet
    · simp [gameRunRaw, hw]
    simp [gameRunRaw, hw]

theorem faucet_preserves_runs (deps : ApiDeps) (st : Db) (body : Option FaucetBody)
    (ip : String) (mint : Option MintReceipt) (now : ℤ) :
    (faucet deps st body ip mint now).1.runs = st.runs := by
  rw [faucet.eq_def]
  split
  · rfl
  cases body with
  | none => simp [logAudit]
  | some b =>
    rcases hw : normalizeAddress b.wallet with _ | wallet
    · simp [hw, logAudit]
    simp only [hw]
    split
    · rfl
    split
    · rfl
    split
    · rfl
    cases mint with
    | none => simp [logAudit]
    | some receipt => simp [logAudit]

/-- Every branch of the finalize route either leaves the `runs` table
untouched or inserts at a hash that previously had no row. -/
theorem signGameRun_runs_cases (deps : ApiDeps) (st : Db) (body : Option RunBody)
    (now : ℤ) :
    (signGameRun deps st body now).1.runs = st.runs ∨
    ∃ rh row, st.runs rh = none ∧
      (signGameRun deps st body now).1.runs = upd st.runs rh row := by
  cases body with
  | none => left; rfl
  | some b =>
    rcases hw : normalizeAddress b.wallet with _ | wallet
    · left; simp [signGameRun, hw, logAudit]
    rcases hh : ensureBytes32 b.runHash with _ | runHash
    · left; simp [signGameRun, hw, hh, logAudit]
    rcases he : parseUint256 b.extractionValue with _ | ev
    · left; simp [signGameRun, hw, hh, he, logAudit]
    rcases hi : parseUint256 b.identityCommitment with _ | ic
    · left; simp [signGameRun, hw, hh, he, hi, logAudit]
    simp only [signGameRun, hw, hh, he, hi]
    split
    · left; rfl
    · split
      · left; rfl
      next hdup =>
        split
        · left; rfl
        · split
          · left; rfl
          · right
            refine ⟨runHash, _, ?_, rfl⟩
            have := fun x => (by simpa [Option.isSome_iff_exists] using hdup : ∀ y, ¬st.runs runHash = some y) x
            cases hx : st.runs runHash with
            | none => rfl
            | some y => exact absurd hx (this y)

/-- C2: run finalization is exactly-once per `runHash` — a parsed,
rate-admitted finalize request for an already-finalized hash fails
`duplicate_run` and leaves the `runs` table unchanged, existing Run rows
survive every request to any of the four protocols unchanged, and no
protocol other than finalize ever writes the `runs` table. -/
theorem run_finalization_exactly_once (deps : ApiDeps) (st : Db) (now : ℤ) :
    (∀ b wallet runHash ev ic r,
      normalizeAddress b.wallet = some wallet →
      ensureBytes32 b.runHash = some runHash →
      parseUint256 b.extractionValue = some ev →
      parseUint256 b.identityCommitment = some ic →
      (checkRateLimit st.rateLimits ("sign-game:" ++ wallet) deps.signGameLimit
        deps.signGameWindowMs now).2.allowed = true →
      st.runs runHash = some r →
      (signGameRun deps st (some b) now).2 = .err .duplicate_run ∧
      (signGameRun deps st (some b) now).1.runs = st.runs) ∧
    (∀ body h r, st.runs h = some r → (signGameRun deps st body now).1.runs h = some r) ∧
    (∀ body, (signIdentity deps st body now).1.runs = st.runs) ∧
    (∀ body, (gameRunRaw st body now).1.runs = st.runs) ∧
    (∀ body ip mint, (faucet deps st body ip mint now).1.runs = st.runs) := by
  refine ⟨?_, ?_, fun body => signIdentity_preserves_runs deps st body now,
    fun body => gameRunRaw_preserves_runs st body now,
    fun body ip mint => faucet_preserves_runs deps st body ip mint now⟩
  · intro b wallet runHash ev ic r hw hh he hi hrate hdup
    simp [signGameRun, hw, hh, he, hi, hrate, hdup]
  · intro body h r hr
    rcases signGameRun_runs_cases deps st body now with hcase | ⟨rh, row, hnone, hupd⟩
    · rw [hcase]; exact hr
    · rw [hupd, upd]
      by_cases hk : h = rh
      · rw [hk] at hr; rw [hr] at hnone; cases hnone
      · simp [hk, hr]

set_option maxRecDepth 100000 in
/-- Witness for C2: resubmitting a finalized hash is rejected without
touching the Run row. -/
theorem run_finalization_exactly_once_witness :
    (signGameRun depsTest dbWithRun
        (some { wallet := walletLowerA, runHash := zeroHash,
                extractionValue := 0, identityCommitment := 0, raw := none }) 0).2 =
      .err .duplicate_run ∧
    (signGameRun depsTest dbWithRun
        (some { wallet := walletLowerA, runHash := zeroHash,
                extractionValue := 0, identityCommitment := 0, raw := none }) 0).1.runs =
      dbWithRun.runs :=
  (run_finalization_exactly_once depsTest dbWithRun 0).1
    { wallet := walletLowerA, runHash := zeroHash,
      extractionValue := 0, identityCommitment := 0, raw := none }
    (getAddress walletLowerA) zeroHash 0 0 runRow0
    (by decide) (by decide) rfl rfl (by decide) (by decide)

/-! ## Faucet cooldown (C7) -/

/-- C7: for a configured, parsed, rate-admitted faucet claim — a claim is
eligible iff no prior claim row exists for `(wallet, token)` or the
elapsed time since `lastClaimAt` is at least the window; an ineligible
claim fails `already_claimed` leaving the claim table unchanged; a
successful grant upserts `lastClaimAt := now`; and with a positive
window a successful repeat claim strictly advances `lastClaimAt`. -/
theorem faucet_cooldown (deps : ApiDeps) (st : Db) (b : FaucetBody) (ip : String)
    (now : ℤ) (wallet tokenName addr : String)
    (hsigner : deps.hasFaucetSigner = true)
    (hw : normalizeAddress b.wallet = some wallet)
    (htn : tokenName = match b.token.getD .USDT with | .USDT => "USDT" | .METH => "METH")
    (haddr : (match b.token.getD .USDT with
              | .USDT => deps.usdtAddress
              | .METH => deps.methAddress) = some addr)
    (hrate : (checkRateLimit st.rateLimits ("faucet-ip:" ++ ip) 5
      deps.faucetWindowMs now).2.allowed = true) :
    (∀ receipt, st.faucetClaims (wallet, tokenName) = none →
      (∃ res, (faucet deps st (some b) ip (some receipt) now).2 = .ok res) ∧
      (faucet deps st (some b) ip (some receipt) now).1.faucetClaims (wallet, tokenName) =
        some { lastClaimAt := now }) ∧
    (∀ mint row, st.faucetClaims (wallet, tokenName) = some row →
      now - row.lastClaimAt < deps.faucetWindowMs →
      (faucet deps st (some b) ip mint now).2 = .err .already_claimed ∧
      (faucet deps st (some b) ip mint now).1.faucetClaims = st.faucetClaims) ∧
    (∀ receipt row, st.faucetClaims (wallet, tokenName) = some row →
      deps.faucetWindowMs ≤ now - row.lastClaimAt →
      (∃ res, (faucet deps st (some b) ip (some receipt) now).2 = .ok res) ∧
      (faucet deps st (some b) ip (some receipt) now).1.faucetClaims (wallet, tokenName) =
        some { lastClaimAt := now } ∧
      (0 < deps.faucetWindowMs → row.lastClaimAt < now)) := by
  subst htn
  refine ⟨?_, ?_, ?_⟩
  · intro receipt hex
    constructor
    · exact ⟨_, by simp [faucet.eq_def, hsigner, hw, haddr, hrate, hex]; rfl⟩
    · simp [faucet.eq_def, hsigner, hw, haddr, hrate, hex, logAudit, upd]
  · intro mint row hex hlt
    constructor
    · simp [faucet.eq_def, hsigner, hw, haddr, hrate, hex, hlt]
    · simp [faucet.eq_def, hsigner, hw, haddr, hrate, hex, hlt]
  · intro receipt row hex hge
    refine ⟨⟨_, by simp [faucet.eq_def, hsigner, hw, haddr, hrate, hex, not_lt.mpr hge]; rfl⟩, ?_, ?_⟩
    · simp [faucet.eq_def, hsigner, hw, haddr, hrate, hex, not_lt.mpr hge, logAudit, upd]
    · intro hpos; omega

set_option maxRecDepth 100000 in
/-- Witness for C7: a first claim against the empty store succeeds and
records the claim time. -/
theorem faucet_cooldown_witness :
    (∃ res, (faucet depsTest emptyDb (some { wallet := walletLowerA, token := none })
        "ip" (some { txHash := "0xtx", balance := 5, blockNumber := some 1 }) 0).2 =
      .ok res) ∧
    (faucet depsTest emptyDb (some { wallet := walletLowerA, token := none })
        "ip" (some { txHash := "0xtx", balance := 5, blockNumber := some 1 }) 0).1.faucetClaims
      (getAddress walletLowerA, "USDT") = some { lastClaimAt := 0 } :=
  (faucet_cooldown depsTest emptyDb { wallet := walletLowerA, token := none } "ip" 0
      (getAddress walletLowerA) "USDT" "0x0000000000000000000000000000000000000002"
      rfl (by decide) rfl rfl rfl).1
    { txHash := "0xtx", balance := 5, blockNumber := some 1 } rfl

/-! ## Mismatch failures and the frame of the finalize route (C8) -/

/-- The finalize route never writes the Identity, faucet-claim or raw-run
tables, on any branch. -/
theorem signGameRun_preserves_other_tables (deps : ApiDeps) (st : Db)
    (body : Option RunBody) (now : ℤ) :
    (signGameRun deps st body now).1.users = st.users ∧
    (signGameRun deps st body now).1.faucetClaims = st.faucetClaims ∧
    (signGameRun deps st body now).1.rawRuns = st.rawRuns := by
  cases body with
  | none => exact ⟨rfl, rfl, rfl⟩
  | some b =>
    rcases hw : normalizeAddress b.wallet with _ | wallet
    · simp [signGameRun, hw, logAudit]
    rcases hh : ensureBytes32 b.runHash with _ | runHash
    · simp [signGameRun, hw, hh, logAudit]
    rcases he : parseUint256 b.extractionValue with _ | ev
    · simp [signGameRun, hw, hh, he, logAudit]
    rcases hi : parseUint256 b.identityCommitment with _ | ic
    · simp [signGameRun, hw, hh, he, hi, logAudit]
    simp only [signGameRun, hw, hh, he, hi]
    split
    · exact ⟨rfl, rfl, rfl⟩
    · split
      · exact ⟨rfl, rfl, rfl⟩
      · split
        · exact ⟨rfl, rfl, rfl⟩
        · split
          · exact ⟨rfl, rfl, rfl⟩
          · exact ⟨rfl, rfl, rfl⟩

/-- Every non-`invalid_request` failure of the finalize route (rate
limit, duplicate, mismatch, authorization) leaves the `runs` table and
the audit log untouched. -/
theorem signGameRun_err_frame (deps : ApiDeps) (st : Db) (body : Option RunBody)
    (now : ℤ) (e : ApiError) (hne : e ≠ .invalid_request)
    (h : (signGameRun deps st body now).2 = .err e) :
    (signGameRun deps st body now).1.runs = st.runs ∧
    (signGameRun deps st body now).1.auditLogs = st.auditLogs := by
  cases body with
  | none =>
    simp only [signGameRun] at h
    simp only [Outcome.err.injEq] at h
    exact absurd h.symm hne
  | some b =>
    rcases hw : normalizeAddress b.wallet with _ | wallet
    · simp only [signGameRun, hw, Outcome.err.injEq] at h
      exact absurd h.symm hne
    rcases hh : ensureBytes32 b.runHash with _ | runHash
    · simp only [signGameRun, hw, hh, Outcome.err.injEq] at h
      exact absurd h.symm hne
    rcases he : parseUint256 b.extractionValue with _ | ev
    · simp only [signGameRun, hw, hh, he, Outcome.err.injEq] at h
      exact absurd h.symm hne
    rcases hi : parseUint256 b.identityCommitment with _ | ic
    · simp only [signGameRun, hw, hh, he, hi, Outcome.err.injEq] at h
      exact absurd h.symm hne
    simp only [signGameRun, hw, hh, he, hi]
    split
    · exact ⟨rfl, rfl⟩
    · split
      · exact ⟨rfl, rfl⟩
      · split
        · exact ⟨rfl, rfl⟩
        · split
          · exact ⟨rfl, rfl⟩
          · exfalso
            simp only [signGameRun, hw, hh, he, hi] at h
            simp_all

/-- C8 (amended): a finalize request that fails `run_hash_mismatch` or
`extraction_value_mismatch` mutates no store other than the rate-limit
counters, which the admission check (run before the mismatch check)
updates — the runs, Identity, raw-run, faucet-claim and audit tables are
all unchanged. -/
theorem mismatch_failure_frame (deps : ApiDeps) (st : Db) (body : Option RunBody)
    (now : ℤ)
    (h : (signGameRun deps st body now).2 = .err .run_hash_mismatch ∨
         (signGameRun deps st body now).2 = .err .extraction_value_mismatch) :
    (signGameRun deps st body now).1.users = st.users ∧
    (signGameRun deps st body now).1.runs = st.runs ∧
    (signGameRun deps st body now).1.rawRuns = st.rawRuns ∧
    (signGameRun deps st body now).1.faucetClaims = st.faucetClaims ∧
    (signGameRun deps st body now).1.auditLogs = st.auditLogs := by
  obtain ⟨hu, hf, hr⟩ := signGameRun_preserves_other_tables deps st body now
  rcases h with h | h
  · obtain ⟨h1, h2⟩ := signGameRun_err_frame deps st body now _ (by simp) h
    exact ⟨hu, h1, hr, hf, h2⟩
  · obtain ⟨h1, h2⟩ := signGameRun_err_frame deps st body now _ (by simp) h
    exact ⟨hu, h1, hr, hf, h2⟩

set_option maxRecDepth 1000000 in
/-- Counterexample to C8 as stated: a concrete finalize request that
fails `run_hash_mismatch` nevertheless mutates the rate-limit store —
the admission check inserted a fresh counter before the mismatch check
ran, so "no store is changed" is false for the rate-limit table. -/
theorem mismatch_failure_mutates_rate_counter :
    (signGameRun depsTest emptyDb (some rawMismatchBody) 0).2 =
      .err .run_hash_mismatch ∧
    emptyDb.rateLimits ("sign-game:" ++ getAddress walletLowerA) = none ∧
    (signGameRun depsTest emptyDb (some rawMismatchBody) 0).1.rateLimits
      ("sign-game:" ++ getAddress walletLowerA) =
      some { windowStart := 0, count := 1 } := by
  refine ⟨by decide, rfl, by decide⟩

set_option maxRecDepth 1000000 in
/-- Witness for the amended C8 at the counterexample input. -/
theorem mismatch_failure_frame_witness :
    (signGameRun depsTest emptyDb (some rawMismatchBody) 0).1.users = emptyDb.users ∧
    (signGameRun depsTest emptyDb (some rawMismatchBody) 0).1.runs = emptyDb.runs ∧
    (signGameRun depsTest emptyDb (some rawMismatchBody) 0).1.rawRuns = emptyDb.rawRuns ∧
    (signGameRun depsTest emptyDb (some rawMismatchBody) 0).1.faucetClaims =
      emptyDb.faucetClaims ∧
    (signGameRun depsTest emptyDb (some rawMismatchBody) 0).1.auditLogs =
      emptyDb.auditLogs :=
  mismatch_failure_frame depsTest emptyDb (some rawMismatchBody) 0
    (Or.inl (by decide))

/-! ## Audit records per terminal outcome (C9) -/

/-- The raw-run route appends no audit record on any outcome. -/
theorem gameRunRaw_never_audits (st : Db) (body : Option RawRunBody) (now : ℤ) :
    (gameRunRaw st body now).1.auditLogs = st.auditLogs := by
  cases body with
  | none => rfl
  | some b =>
    rcases hw : normalizeAddress b.wallet with _ | wallet
    · simp [gameRunRaw, hw]
    · simp [gameRunRaw, hw]

theorem signIdentity_audit_count (deps : ApiDeps) (st : Db)
    (body : Option IdentityBody) (now : ℤ) :
    (signIdentity deps st body now).1.auditLogs.length =
      st.auditLogs.length + auditCount (signIdentity deps st body now).2 := by
  cases body with
  | none => simp [signIdentity, logAudit, auditCount]
  | some b =>
    rcases hw : normalizeAddress b.wallet with _ | wallet
    · simp [signIdentity, hw, logAudit, auditCount]
    rcases hc : parseUint256 b.commitment with _ | commitment
    · simp [signIdentity, hw, hc, logAudit, auditCount]
    simp only [signIdentity, hw, hc]
    split
    · simp [auditCount]
    · split
      · simp [auditCount]
      · split
        · simp [auditCount]
        · simp [logAudit, auditCount]

/-- The error produced by the raw-payload recomputation is always one of
the two mismatch tags, which append no audit record. -/
theorem mismatch_auditCount (raw : Option Json) (runHash : String) (ev : ℤ)
    (e : ApiError)
    (h : (match raw with
          | some raw' =>
            if jsTruthy raw' = true then
              if computeRunHash raw' ≠ runHash then some ApiError.run_hash_mismatch
              else if computeExtractionValue raw' ≠ ev then
                some ApiError.extraction_value_mismatch
              else none
            else none
          | none => none) = some e) :
    auditCount (Outcome.err e : Outcome RunRes) = 0 := by
  rcases raw with _ | raw
  · simp at h
  · simp only at h
    split at h
    · split at h
      · injection h with h
        subst h
        rfl
      · split at h
        · injection h with h
          subst h
          rfl
        · simp at h
    · simp at h

theorem signGameRun_audit_count (deps : ApiDeps) (st : Db)
    (body : Option RunBody) (now : ℤ) :
    (signGameRun deps st body now).1.auditLogs.length =
      st.auditLogs.length + auditCount (signGameRun deps st body now).2 := by
  cases body with
  | none => simp [signGameRun, logAudit, auditCount]
  | some b =>
    rcases hw : normalizeAddress b.wallet with _ | wallet
    · simp [signGameRun, hw, logAudit, auditCount]
    rcases hh : ensureBytes32 b.runHash with _ | runHash
    · simp [signGameRun, hw, hh, logAudit, auditCount]
    rcases he : parseUint256 b.extractionValue with _ | ev
    · simp [signGameRun, hw, hh, he, logAudit, auditCount]
    rcases hi : parseUint256 b.identityCommitment with _ | ic
    · simp [signGameRun, hw, hh, he, hi, logAudit, auditCount]
    simp only [signGameRun, hw, hh, he, hi]
    split
    · simp [auditCount]
    · split
      · simp [auditCount]
      · split
        next e heq =>
          rw [mismatch_auditCount _ _ _ _ heq]
          simp
        · split
          · simp [auditCount]
          · simp [logAudit, auditCount]

theorem faucet_audit_count (deps : ApiDeps) (st : Db) (body : Option FaucetBody)
    (ip : String) (mint : Option MintReceipt) (now : ℤ) :
    (faucet deps st body ip mint now).1.auditLogs.length =
      st.auditLogs.length + auditCount (faucet deps st body ip mint now).2 := by
  rw [faucet.eq_def]
  split
  · simp [auditCount]
  cases body with
  | none => simp [logAudit, auditCount]
  | some b =>
    rcases hw : normalizeAddress b.wallet with _ | wallet
    · simp [hw, logAudit, auditCount]
    simp only [hw]
    split
    · simp [auditCount]
    · split
      · simp [auditCount]
      · split
        · simp [auditCount]
        · cases mint with
          | none => simp [logAudit, auditCount]
          | some receipt => simp [logAudit, auditCount]

/-- C9 (amended): audit records are appended by the identity, finalize
and faucet protocols on exactly the audited outcomes — one record on
success and one on a caught failure (`invalid_request`), with the wallet
field null when schema validation or normalization failed before a
wallet was determined — while the early-returned failures (rate limit,
conflict, mismatch, authorization, configuration) and the raw-run
protocol on every outcome append none. -/
theorem audit_record_per_outcome (deps : ApiDeps) (st : Db) (now : ℤ) :
    (∀ body, (signIdentity deps st body now).1.auditLogs.length =
      st.auditLogs.length + auditCount (signIdentity deps st body now).2) ∧
    (∀ body, (signGameRun deps st body now).1.auditLogs.length =
      st.auditLogs.length + auditCount (signGameRun deps st body now).2) ∧
    (∀ body ip mint, (faucet deps st body ip mint now).1.auditLogs.length =
      st.auditLogs.length + auditCount (faucet deps st body ip mint now).2) ∧
    (∀ body, (gameRunRaw st body now).1.auditLogs = st.auditLogs) ∧
    ((signIdentity deps st none now).1.auditLogs = st.auditLogs ++
      [{ eventType := "sign_identity", wallet := none, details := "error",
         success := false, createdAt := now }]) ∧
    ((signGameRun deps st none now).1.auditLogs = st.auditLogs ++
      [{ eventType := "sign_game_run", wallet := none, details := "error",
         success := false, createdAt := now }]) ∧
    (∀ ip mint, deps.hasFaucetSigner = true →
      (faucet deps st none ip mint now).1.auditLogs = st.auditLogs ++
        [{ eventType := "faucet_mint", wallet := none, details := "error",
           success := false, createdAt := now }]) ∧
    (∀ b, normalizeAddress b.wallet = none →
      (signIdentity deps st (some b) now).1.auditLogs = st.auditLogs ++
        [{ eventType := "sign_identity", wallet := none, details := "error",
           success := false, createdAt := now }]) ∧
    (∀ b, normalizeAddress b.wallet = none →
      (signGameRun deps st (some b) now).1.auditLogs = st.auditLogs ++
        [{ eventType := "sign_game_run", wallet := none, details := "error",
           success := false, createdAt := now }]) ∧
    (∀ b ip mint, deps.hasFaucetSigner = true → normalizeAddress b.wallet = none →
      (faucet deps st (some b) ip mint now).1.auditLogs = st.auditLogs ++
        [{ eventType := "faucet_mint", wallet := none, details := "error",
           success := false, createdAt := now }]) := by
  refine ⟨fun body => signIdentity_audit_count deps st body now,
    fun body => signGameRun_audit_count deps st body now,
    fun body ip mint => faucet_audit_count deps st body ip mint now,
    fun body => gameRunRaw_never_audits st body now, rfl, rfl, ?_, ?_, ?_, ?_⟩
  · intro ip mint hsigner
    simp [faucet.eq_def, hsigner, logAudit]
  · intro b hw
    simp [signIdentity, hw, logAudit]
  · intro b hw
    simp [signGameRun, hw, logAudit]
  · intro b ip mint hsigner hw
    simp [faucet.eq_def, hsigner, hw, logAudit]

set_option maxRecDepth 1000000 in
/-- Counterexample to C9 as stated: a raw-run derivation reaches a
successful terminal outcome, yet zero audit records are appended (and a
parsed duplicate finalize failure likewise appends none). -/
theorem audit_record_per_outcome_counterexample :
    (∃ res, (gameRunRaw emptyDb (some rawBody0) 0).2 = .ok res) ∧
    (gameRunRaw emptyDb (some rawBody0) 0).1.auditLogs = [] ∧
    (signGameRun depsTest dbWithRun
        (some { wallet := walletLowerA, runHash := zeroHash,
                extractionValue := 0, identityCommitment := 0, raw := none }) 0).2 =
      .err .duplicate_run ∧
    (signGameRun depsTest dbWithRun
        (some { wallet := walletLowerA, runHash := zeroHash,
                extractionValue := 0, identityCommitment := 0, raw := none }) 0).1.auditLogs =
      [] :=
  ⟨⟨_, rfl⟩, rfl, by decide, by decide⟩

/-- Witness for the amended C9: a request whose wallet fails
normalization appends exactly one wallet-null record. -/
theorem audit_record_per_outcome_witness :
    (signIdentity depsTest emptyDb
        (some { wallet := "not-an-address", commitment := 7 }) 0).1.auditLogs =
      emptyDb.auditLogs ++
      [{ eventType := "sign_identity", wallet := none, details := "error",
         success := false, createdAt := 0 }] :=
  (audit_record_per_outcome depsTest emptyDb 0).2.2.2.2.2.2.2.1
    { wallet := "not-an-address", commitment := 7 } rfl

/-! ## Raw-run derivation hashes the normalized payload (C10) -/

theorem isAddress_shape {s : String} (h : isAddress s = true) :
    ∃ rest, s.data = '0' :: 'x' :: rest := by
  rcases hd : s.data with _ | ⟨c1, _ | ⟨c2, rest⟩⟩
  · rw [isAddress, hd] at h
    cases h
  · rw [isAddress, hd] at h
    split at h
    next r heq => simp at heq
    next => cases h
  · rw [isAddress, hd] at h
    split at h
    next r heq =>
      simp only [List.cons.injEq] at heq
      exact ⟨r, by rw [heq.1, heq.2.1, heq.2.2]⟩
    next => cases h

theorem getAddress_eq {s : String} {rest : List Char}
    (hd : s.data = '0' :: 'x' :: rest) :
    getAddress s = "0x" ++ String.mk (checksumCase rest) := by
  rw [getAddress, hd]
  rfl

theorem checksumCase_congr {d1 d2 : List Char}
    (h : d1.map lowerHexChar = d2.map lowerHexChar) :
    checksumCase d1 = checksumCase d2 := by
  rw [checksumCase, checksumCase, h]

/-- The canonical checksummed form of a valid address depends only on
the case-insensitive digit string. -/
theorem getAddress_case_insensitive {s1 s2 : String}
    (h1 : isAddress s1 = true) (h2 : isAddress s2 = true)
    (hcase : s1.data.map lowerHexChar = s2.data.map lowerHexChar) :
    getAddress s1 = getAddress s2 := by
  obtain ⟨rest1, hd1⟩ := isAddress_shape h1
  obtain ⟨rest2, hd2⟩ := isAddress_shape h2
  rw [getAddress_eq hd1, getAddress_eq hd2]
  rw [hd1, hd2] at hcase
  simp only [List.map_cons, List.cons.injEq] at hcase
  rw [checksumCase_congr hcase.2.2]

/-- C10: the raw-run protocol computes `runHash` and `extractionValue`
over the submitted payload with its wallet replaced by the canonical
checksummed address, so two raw submissions identical except for the
letter-case of the same valid wallet return equal `runHash` and equal
`extractionValue`. -/
theorem rawRun_normalizes_wallet (st1 st2 : Db) (b1 b2 : RawRunBody) (now1 now2 : ℤ)
    (h1 : isAddress b1.wallet = true) (h2 : isAddress b2.wallet = true)
    (hcase : b1.wallet.data.map lowerHexChar = b2.wallet.data.map lowerHexChar)
    (hsid : b1.sessionId = b2.sessionId) (hev : b1.events = b2.events)
    (hsc : b1.score = b2.score) :
    (gameRunRaw st1 (some b1) now1).2 =
      .ok { runHash := computeRunHash (rawRunPayload b1 (getAddress b1.wallet)),
            extractionValue :=
              toString (computeExtractionValue (rawRunPayload b1 (getAddress b1.wallet))) } ∧
    (gameRunRaw st1 (some b1) now1).2 = (gameRunRaw st2 (some b2) now2).2 := by
  have hn1 : normalizeAddress b1.wallet = some (getAddress b1.wallet) := by
    rw [normalizeAddress, if_pos h1]
  have hn2 : normalizeAddress b2.wallet = some (getAddress b2.wallet) := by
    rw [normalizeAddress, if_pos h2]
  have hga : getAddress b1.wallet = getAddress b2.wallet :=
    getAddress_case_insensitive h1 h2 hcase
  have hpay : rawRunPayload b1 (getAddress b1.wallet) =
      rawRunPayload b2 (getAddress b2.wallet) := by
    rw [rawRunPayload, rawRunPayload, hga, hsid, hev, hsc]
  constructor
  · simp [gameRunRaw, hn1]
  · simp [gameRunRaw, hn1, hn2, hpay]

set_option maxRecDepth 1000000 in
/-- Witness for C10: the same raw submission under the lower-case and the
upper-case spelling of one wallet yields one derivation. -/
theorem rawRun_normalizes_wallet_witness :
    (gameRunRaw emptyDb (some rawBody0) 0).2 =
      .ok { runHash := computeRunHash (rawRunPayload rawBody0 (getAddress walletLowerA)),
            extractionValue :=
              toString (computeExtractionValue
                (rawRunPayload rawBody0 (getAddress walletLowerA))) } ∧
    (gameRunRaw emptyDb (some rawBody0) 0).2 =
      (gameRunRaw emptyDb
        (some { rawBody0 with wallet := walletUpperA }) 7).2 :=
  rawRun_normalizes_wallet emptyDb emptyDb rawBody0
    { rawBody0 with wallet := walletUpperA } 0 7
    (by decide) (by decide) (by decide) rfl rfl rfl

end NeonSentinel
